import Mathlib

/-!
Verification of the expert-parallel MoE layer
(sglang/srt/layers/moe/ep_moe/layer.py).

The Python tensors are embedded as total functions or lists over ℚ;
machine floats are idealised as rationals, and slice assignments become
pointwise index arithmetic on those functions.
-/

namespace EPMoE

/-- Embedding of `EPMoE.determine_expert_map`
(layer.py, lines 247-286).  Arguments follow the fields read by the
method: `epSize = self.tp_size`, `epRank = self.tp_rank`,
`globalNum = self.num_experts`.  Returns
`(local_num_experts, expert_map)`; the map (a tensor of length
`globalNum` in the source, a list here) holds the sentinel
`self.num_experts` for ids not owned by this rank.  When `ep_size == 1`
no map is built and `none` is returned. -/
def determine_expert_map (epSize epRank globalNum : ℕ) : ℕ × Option (List ℕ) :=
  if epSize = 1 then (globalNum, none)
  else if epRank < epSize - 1 then
    (globalNum / epSize,
     some ((List.range globalNum).map (fun g =>
       if epRank * (globalNum / epSize) ≤ g ∧
          g < (epRank + 1) * (globalNum / epSize)
       then g - epRank * (globalNum / epSize) else globalNum)))
  else
    (globalNum - epRank * (globalNum / epSize),
     some ((List.range globalNum).map (fun g =>
       if globalNum - (globalNum - epRank * (globalNum / epSize)) ≤ g
       then g - (globalNum - (globalNum - epRank * (globalNum / epSize)))
       else globalNum)))

/-- First global expert id owned by a rank: in `EPMoE.__init__`
`self.start_expert_id = self.tp_rank * self.num_experts_per_partition`;
under the divisibility invariant this equals
`epRank * (globalNum / epSize)`, which is also the first index written
by `determine_expert_map` for every branch. -/
def shardStart (epSize epRank globalNum : ℕ) : ℕ :=
  epRank * (globalNum / epSize)

/-- One past the last global expert id owned by a rank, read off the
slice written by `determine_expert_map`: every rank but the last owns
up to `(epRank + 1) * (globalNum / epSize)`, the last rank owns up to
`globalNum`. -/
def shardStop (epSize epRank globalNum : ℕ) : ℕ :=
  if epRank + 1 < epSize then (epRank + 1) * (globalNum / epSize)
  else globalNum

/-- Embedding of the partition phase of `EPMoE.__init__`
(layer.py, lines 176-180): the construction asserts
`num_experts % tp_size == 0` and then derives
`(num_experts_per_partition, start_expert_id, end_expert_id)`. -/
def epmoe_init_partition (tpSize tpRank numExperts : ℕ) :
    Except String (ℕ × ℕ × ℕ) :=
  if numExperts % tpSize = 0 then
    let count := (determine_expert_map tpSize tpRank numExperts).1
    Except.ok (count, tpRank * count, tpRank * count + count - 1)
  else
    Except.error "AssertionError: num_experts must be divisible by tp_size"

theorem list_getD_map_range (f : ℕ → ℕ) (n g : ℕ) (hg : g < n) :
    (((List.range n).map f).getD g 0) = f g := by
  rw [List.getD_eq_getElem?_getD, List.getElem?_map, List.getElem?_range hg]
  rfl

theorem shard_sizes (epSize epRank globalNum : ℕ) (hs : 1 ≤ epSize)
    (hr : epRank < epSize) :
    (determine_expert_map epSize epRank globalNum).1 =
      shardStop epSize epRank globalNum - shardStart epSize epRank globalNum := by
  unfold determine_expert_map shardStop shardStart
  rcases Nat.eq_or_lt_of_le hs with h1 | h2
  · have he : epSize = 1 := h1.symm
    subst he
    have : epRank = 0 := by omega
    subst this
    simp
  · have hne : epSize ≠ 1 := by omega
    rw [if_neg hne]
    by_cases hlt : epRank < epSize - 1
    · have hlt2 : epRank + 1 < epSize := by omega
      rw [if_pos hlt, if_pos hlt2]
      simp only
      rw [Nat.succ_mul]
      exact (Nat.add_sub_cancel_left _ _).symm
    · have hlast : epRank = epSize - 1 := by omega
      have hlt2 : ¬ epRank + 1 < epSize := by omega
      rw [if_neg hlt, if_neg hlt2]

theorem shard_start_le_global (epSize epRank globalNum : ℕ)
    (hr : epRank < epSize) :
    shardStart epSize epRank globalNum ≤ globalNum := by
  unfold shardStart
  calc epRank * (globalNum / epSize)
      ≤ epSize * (globalNum / epSize) :=
        Nat.mul_le_mul_right _ (Nat.le_of_lt hr)
    _ ≤ globalNum := by
        rw [Nat.mul_comm]
        exact Nat.div_mul_le_self globalNum epSize

theorem shard_partition (epSize globalNum : ℕ) (hs : 1 ≤ epSize) (g : ℕ)
    (hg : g < globalNum) :
    ∃! r, r < epSize ∧ shardStart epSize r globalNum ≤ g ∧
      g < shardStop epSize r globalNum := by
  simp only [shardStart, shardStop]
  by_cases hcase : g < (epSize - 1) * (globalNum / epSize)
  · have hl0 : 0 < globalNum / epSize := by
      rcases Nat.eq_zero_or_pos (globalNum / epSize) with h0 | h0
      · rw [h0, Nat.mul_zero] at hcase
        exact absurd hcase (Nat.not_lt_zero g)
      · exact h0
    have hdl : g / (globalNum / epSize) < epSize - 1 :=
      (Nat.div_lt_iff_lt_mul hl0).mpr hcase
    refine ⟨g / (globalNum / epSize), ⟨by omega, ?_, ?_⟩, ?_⟩
    · exact Nat.div_mul_le_self g (globalNum / epSize)
    · rw [if_pos (by omega)]
      have h1 : g % (globalNum / epSize) < globalNum / epSize :=
        Nat.mod_lt _ hl0
      have h2 : globalNum / epSize * (g / (globalNum / epSize)) +
          g % (globalNum / epSize) = g := Nat.div_add_mod g (globalNum / epSize)
      calc g = globalNum / epSize * (g / (globalNum / epSize)) +
              g % (globalNum / epSize) := h2.symm
        _ < globalNum / epSize * (g / (globalNum / epSize)) +
              globalNum / epSize := by omega
        _ = (g / (globalNum / epSize) + 1) * (globalNum / epSize) := by ring
    · rintro r ⟨hr, hlo, hhi⟩
      by_cases hr1 : r + 1 < epSize
      · rw [if_pos hr1] at hhi
        exact (Nat.div_eq_of_lt_le hlo hhi).symm
      · have hre : r = epSize - 1 := by omega
        rw [hre] at hlo
        exact absurd (Nat.lt_of_lt_of_le hcase hlo) (Nat.lt_irrefl g)
  · push_neg at hcase
    refine ⟨epSize - 1, ⟨by omega, ?_, ?_⟩, ?_⟩
    · exact hcase
    · rw [if_neg (by omega)]
      exact hg
    · rintro r ⟨hr, hlo, hhi⟩
      by_cases hr1 : r + 1 < epSize
      · rw [if_pos hr1] at hhi
        have hle : (r + 1) * (globalNum / epSize) ≤
            (epSize - 1) * (globalNum / epSize) :=
          Nat.mul_le_mul_right _ (by omega)
        exact absurd (Nat.lt_of_lt_of_le hhi (Nat.le_trans hle hcase))
          (Nat.lt_irrefl g)
      · omega

theorem expert_map_entries (epSize epRank globalNum : ℕ) (hs : 2 ≤ epSize)
    (hr : epRank < epSize) (m : List ℕ)
    (hm : (determine_expert_map epSize epRank globalNum).2 = some m) :
    m.length = globalNum ∧
    ∀ g, g < globalNum →
      m.getD g 0 =
        if shardStart epSize epRank globalNum ≤ g ∧
           g < shardStop epSize epRank globalNum
        then g - shardStart epSize epRank globalNum else globalNum := by
  unfold determine_expert_map at hm
  rw [if_neg (by omega : ¬ epSize = 1)] at hm
  by_cases hlt : epRank < epSize - 1
  · rw [if_pos hlt] at hm
    simp only at hm
    obtain rfl : ((List.range globalNum).map (fun g =>
        if epRank * (globalNum / epSize) ≤ g ∧
           g < (epRank + 1) * (globalNum / epSize)
        then g - epRank * (globalNum / epSize) else globalNum)) = m :=
      Option.some.inj hm
    constructor
    · simp
    · intro g hg
      rw [list_getD_map_range _ _ _ hg]
      simp only [shardStart, shardStop]
      rw [if_pos (by omega : epRank + 1 < epSize)]
  · rw [if_neg hlt] at hm
    simp only at hm
    obtain rfl : ((List.range globalNum).map (fun g =>
        if globalNum - (globalNum - epRank * (globalNum / epSize)) ≤ g
        then g - (globalNum - (globalNum - epRank * (globalNum / epSize)))
        else globalNum)) = m :=
      Option.some.inj hm
    constructor
    · simp
    · intro g hg
      rw [list_getD_map_range _ _ _ hg]
      have hle : epRank * (globalNum / epSize) ≤ globalNum :=
        shard_start_le_global epSize epRank globalNum hr
      have hsub : globalNum - (globalNum - epRank * (globalNum / epSize)) =
          epRank * (globalNum / epSize) := Nat.sub_sub_self hle
      simp only [shardStart, shardStop]
      rw [if_neg (by omega : ¬ epRank + 1 < epSize), hsub]
      by_cases hx : epRank * (globalNum / epSize) ≤ g
      · rw [if_pos hx, if_pos ⟨hx, hg⟩]
      · rw [if_neg hx, if_neg (fun hc => hx hc.1)]

/-- Whether an `Except` computation succeeded. -/
def exceptOk {ε α : Type} : Except ε α → Bool
  | Except.ok _ => true
  | Except.error _ => false

/-- C2: `determine_expert_map` assigns each rank the contiguous range
`[shardStart, shardStop)`; these ranges are pairwise disjoint and cover
`0..total_experts-1` exactly once (every owned id lies in exactly one
rank's range), every rank except the last receives
`total_experts / shard_count` experts, the last rank absorbs the
remainder, entries of the returned global-to-local map outside the
owned range hold the sentinel `total_experts`, and the configuration
`total_experts = 8, shard_count = 2, shard_rank = 1` yields
`start_id = 4, end_id = 7, local_count = 4`. -/
theorem determine_expert_map_partitions (epSize epRank globalNum : ℕ)
    (hs : 1 ≤ epSize) (hr : epRank < epSize) :
    ((determine_expert_map epSize epRank globalNum).1 =
        shardStop epSize epRank globalNum - shardStart epSize epRank globalNum)
    ∧ (epRank + 1 < epSize →
        (determine_expert_map epSize epRank globalNum).1 = globalNum / epSize)
    ∧ (epRank + 1 = epSize →
        (determine_expert_map epSize epRank globalNum).1 =
          globalNum - (epSize - 1) * (globalNum / epSize))
    ∧ (∀ g, g < globalNum → ∃! q, q < epSize ∧
        shardStart epSize q globalNum ≤ g ∧ g < shardStop epSize q globalNum)
    ∧ (∀ m, (determine_expert_map epSize epRank globalNum).2 = some m →
        m.length = globalNum ∧
        ∀ g, g < globalNum →
          m.getD g 0 =
            if shardStart epSize epRank globalNum ≤ g ∧
               g < shardStop epSize epRank globalNum
            then g - shardStart epSize epRank globalNum else globalNum)
    ∧ (determine_expert_map 2 1 8 = (4, some [8, 8, 8, 8, 0, 1, 2, 3])
        ∧ shardStart 2 1 8 = 4 ∧ shardStop 2 1 8 - 1 = 7
        ∧ (determine_expert_map 2 1 8).1 = 4) := by
  refine ⟨shard_sizes epSize epRank globalNum hs hr, ?_, ?_,
    fun g hg => shard_partition epSize globalNum hs g hg, ?_, by decide⟩
  · intro h
    unfold determine_expert_map
    rw [if_neg (by omega : ¬ epSize = 1), if_pos (by omega : epRank < epSize - 1)]
  · intro h
    by_cases h1 : epSize = 1
    · subst h1
      have h0 : epRank = 0 := by omega
      subst h0
      unfold determine_expert_map
      simp
    · unfold determine_expert_map
      rw [if_neg h1, if_neg (by omega : ¬ epRank < epSize - 1)]
      simp only
      rw [show epRank = epSize - 1 by omega]
  · intro m hm
    by_cases h1 : epSize = 1
    · exfalso
      unfold determine_expert_map at hm
      rw [if_pos h1] at hm
      exact Option.noConfusion hm
    · exact expert_map_entries epSize epRank globalNum (by omega) hr m hm

theorem determine_expert_map_partitions_witness :
    (determine_expert_map 3 2 8).1 = 4 := by
  have h := (determine_expert_map_partitions 3 2 8 (by decide) (by decide)).2.2.1 rfl
  exact h.trans (by decide)

/-- C7: construction of the expert-parallel layer fails if and only if
`num_experts % tp_size ≠ 0` (the assert in `EPMoE.__init__`); every
divisible configuration succeeds and no other partition-related
condition fails the construction. -/
theorem epmoe_init_partition_ok_iff (tpSize tpRank numExperts : ℕ)
    (hs : 1 ≤ tpSize) :
    exceptOk (epmoe_init_partition tpSize tpRank numExperts) = true ↔
      numExperts % tpSize = 0 := by
  unfold epmoe_init_partition
  by_cases h : numExperts % tpSize = 0
  · rw [if_pos h]
    simp only [exceptOk]
    exact iff_of_true trivial h
  · rw [if_neg h]
    simp only [exceptOk]
    exact iff_of_false (by simp) h

theorem epmoe_init_partition_ok_iff_witness :
    exceptOk (epmoe_init_partition 2 1 8) = true ∧ (8 : ℕ) % 2 = 0 :=
  ⟨(epmoe_init_partition_ok_iff 2 1 8 (by decide)).mpr (by decide), by decide⟩

/-! ## Weight loading (layer.py, lines 729-851) -/

/-- The shape class of a parameter tensor passed to the weight loader:
`mat` for per-expert two-dimensional tensors (weights, block-quant or
w4afp8 weight scales), `vec` for per-expert scalar tensors (fp8 input
scales), `slots` for per-expert short vectors (w4afp8 input scales and
merged gate/up weight-scale pairs, indices 0 and 1). -/
inductive PData
  | mat (f : ℕ → ℕ → ℕ → ℚ)
  | vec (f : ℕ → ℚ)
  | slots (f : ℕ → ℕ → ℚ)

/-- Which substring of `weight_name` the loader dispatches on:
no occurrence of "scale", "input_scale", "weight_scale", or "scale"
without either of the two. -/
inductive WNameKind
  | plainWeight
  | inputScaleName
  | weightScaleName
  | otherScaleName
deriving DecidableEq

/-- Static layer data read by the weight loader. -/
structure LoaderCfg where
  startExpertId : ℕ
  endExpertId : ℕ
  intermediateSize : ℕ
  useW4afp8 : Bool
  useBlockQuant : Bool
  blockN : ℕ
  blockK : ℕ

def updVec (f : ℕ → ℚ) (e : ℕ) (v : ℚ) : ℕ → ℚ :=
  fun x => if x = e then v else f x

def updSlot (f : ℕ → ℕ → ℚ) (e s : ℕ) (v : ℚ) : ℕ → ℕ → ℚ :=
  fun x y => if x = e ∧ y = s then v else f x y

/-- Overwrite expert row `e` of a 2-D per-expert tensor
(`param.data[expert_id] = loaded_weight`). -/
def setExpertMat (f : ℕ → ℕ → ℕ → ℚ) (e : ℕ) (w : ℕ → ℕ → ℚ) :
    ℕ → ℕ → ℕ → ℚ :=
  fun x r c => if x = e then w r c else f x r c

/-- Overwrite rows `[0, hi)` of expert `e`
(`param.data[expert_id][:hi, :] = loaded_weight`). -/
def setMatRowsBelow (f : ℕ → ℕ → ℕ → ℚ) (e hi : ℕ) (w : ℕ → ℕ → ℚ) :
    ℕ → ℕ → ℕ → ℚ :=
  fun x r c => if x = e ∧ r < hi then w r c else f x r c

/-- Overwrite rows `[lo, ...)` of expert `e`
(`param.data[expert_id][lo:, :] = loaded_weight`). -/
def setMatRowsFrom (f : ℕ → ℕ → ℕ → ℚ) (e lo : ℕ) (w : ℕ → ℕ → ℚ) :
    ℕ → ℕ → ℕ → ℚ :=
  fun x r c => if x = e ∧ lo ≤ r then w (r - lo) c else f x r c

/-- `param_data[expert_id] = loaded_weight` on any parameter shape;
scalar loads carry their value at index (0, 0). -/
def assignExpert (pd : PData) (e : ℕ) (loaded : ℕ → ℕ → ℚ) : PData :=
  match pd with
  | PData.mat f => PData.mat (setExpertMat f e loaded)
  | PData.vec f => PData.vec (updVec f e (loaded 0 0))
  | PData.slots f => PData.slots (fun x y => if x = e then loaded 0 y else f x y)

/-- The fp8 gate/up input-scale consistency tolerance (layer.py, line 812). -/
def inputScaleTol : ℚ := 1 / 100000

/-- Embedding of `EPMoE._load_fp8_scale` (layer.py, lines 788-851).
`e` is the local expert index, already shifted by `start_expert_id` in
the caller.  Mirrors the source branch for branch: input scales go
through the w4afp8 slot writes (with early return, no consistency
check) or the fp8 scalar write guarded by the 1e-5 check against an
already-stored value different from 1; weight scales branch on
block-quant / w4afp8 / merged-column. -/
def load_fp8_scale (cfg : LoaderCfg) (pd : PData) (loaded : ℕ → ℕ → ℚ)
    (wname : WNameKind) (shardId : String) (e : ℕ) : Except String PData :=
  match wname with
  | WNameKind.inputScaleName =>
    if cfg.useW4afp8 = true then
      match pd with
      | PData.slots f =>
        if shardId = "w1" then
          Except.ok (PData.slots (updSlot f e 0 (loaded 0 0)))
        else if shardId = "w3" then
          Except.ok (PData.slots (updSlot f e 1 (loaded 0 0)))
        else Except.ok (assignExpert (PData.slots f) e loaded)
      | _ => Except.error "unexpected parameter shape"
    else
      match pd with
      | PData.vec f =>
        if (shardId = "w1" ∨ shardId = "w3") ∧ f e ≠ 1 ∧
            |f e - loaded 0 0| > inputScaleTol then
          Except.error "input_scales of w1 and w3 of a layer must be equal"
        else Except.ok (PData.vec (updVec f e (loaded 0 0)))
      | _ => Except.error "unexpected parameter shape"
  | WNameKind.weightScaleName =>
    if cfg.useBlockQuant = true then
      match pd with
      | PData.mat f =>
        if shardId = "w1" then
          Except.ok (PData.mat (setMatRowsBelow f e
            ((cfg.intermediateSize + cfg.blockN - 1) / cfg.blockN) loaded))
        else if shardId = "w3" then
          Except.ok (PData.mat (setMatRowsFrom f e
            ((cfg.intermediateSize + cfg.blockN - 1) / cfg.blockN) loaded))
        else Except.ok (assignExpert (PData.mat f) e loaded)
      | _ => Except.error "unexpected parameter shape"
    else if cfg.useW4afp8 = true then
      match pd with
      | PData.mat f =>
        if shardId = "w1" then
          Except.ok (PData.mat (setMatRowsBelow f e cfg.intermediateSize loaded))
        else if shardId = "w3" then
          Except.ok (PData.mat (setMatRowsFrom f e cfg.intermediateSize loaded))
        else Except.ok (assignExpert (PData.mat f) e loaded)
      | _ => Except.error "unexpected parameter shape"
    else
      if shardId = "w1" ∨ shardId = "w3" then
        match pd with
        | PData.slots f =>
          Except.ok (PData.slots (updSlot f e
            (if shardId = "w1" then 0 else 1) (loaded 0 0)))
        | _ => Except.error "unexpected parameter shape"
      else Except.ok (assignExpert pd e loaded)
  | _ => Except.ok pd

/-- Embedding of `EPMoE._weight_loader_physical`
(layer.py, lines 751-786): the owned-range check comes first and
returns silently, then the `shard_id` validation, then the dispatch on
"scale" in the weight name, then the plain weight writes. -/
def weight_loader_physical (cfg : LoaderCfg) (pd : PData)
    (loaded : ℕ → ℕ → ℚ) (wname : WNameKind) (shardId : String)
    (expertId : ℕ) : Except String PData :=
  if expertId < cfg.startExpertId ∨ cfg.endExpertId < expertId then
    Except.ok pd
  else if shardId ≠ "w1" ∧ shardId ≠ "w2" ∧ shardId ≠ "w3" then
    Except.error "shard_id must be w1 w2 or w3"
  else if wname ≠ WNameKind.plainWeight then
    load_fp8_scale cfg pd loaded wname shardId (expertId - cfg.startExpertId)
  else if shardId = "w2" then
    Except.ok (assignExpert pd (expertId - cfg.startExpertId) loaded)
  else if shardId = "w1" then
    match pd with
    | PData.mat f =>
      Except.ok (PData.mat (setMatRowsBelow f (expertId - cfg.startExpertId)
        cfg.intermediateSize loaded))
    | _ => Except.error "unexpected parameter shape"
  else
    match pd with
    | PData.mat f =>
      Except.ok (PData.mat (setMatRowsFrom f (expertId - cfg.startExpertId)
        cfg.intermediateSize loaded))
    | _ => Except.error "unexpected parameter shape"

/-- A convenient fp8 (non-w4afp8, non-block-quant) test configuration:
experts 4..7 owned locally. -/
def fp8TestCfg : LoaderCfg :=
  { startExpertId := 4, endExpertId := 7, intermediateSize := 16,
    useW4afp8 := false, useBlockQuant := false, blockN := 128, blockK := 128 }

/-- C8: a call to the physical weight loader with an expert id outside
the locally owned range `[start_expert_id, end_expert_id]` returns
silently, raising no error and leaving the parameter storage exactly as
it was, for every parameter kind, weight name and shard id. -/
theorem weight_loader_physical_out_of_range (cfg : LoaderCfg) (pd : PData)
    (loaded : ℕ → ℕ → ℚ) (wname : WNameKind) (shardId : String)
    (expertId : ℕ)
    (h : expertId < cfg.startExpertId ∨ cfg.endExpertId < expertId) :
    weight_loader_physical cfg pd loaded wname shardId expertId =
      Except.ok pd := by
  unfold weight_loader_physical
  rw [if_pos h]

theorem weight_loader_physical_out_of_range_witness :
    weight_loader_physical fp8TestCfg (PData.vec (fun _ => 1))
      (fun _ _ => 2) WNameKind.plainWeight "w1" 9 =
      Except.ok (PData.vec (fun _ => 1)) :=
  weight_loader_physical_out_of_range fp8TestCfg (PData.vec (fun _ => 1))
    (fun _ _ => 2) WNameKind.plainWeight "w1" 9 (Or.inr (by decide))

/-- C9: in `_weight_loader_physical` the owned-range check precedes the
`shard_id` validation: an invalid shard id raises a ValueError exactly
when the expert id is inside the owned range, and the same invalid
shard id returns silently, without error or mutation, when the expert
id is outside the owned range. -/
theorem weight_loader_physical_shard_check_order (cfg : LoaderCfg)
    (pd : PData) (loaded : ℕ → ℕ → ℚ) (wname : WNameKind)
    (shardId : String) (expertId : ℕ)
    (hbad : shardId ≠ "w1" ∧ shardId ≠ "w2" ∧ shardId ≠ "w3") :
    (cfg.startExpertId ≤ expertId ∧ expertId ≤ cfg.endExpertId →
      weight_loader_physical cfg pd loaded wname shardId expertId =
        Except.error "shard_id must be w1 w2 or w3")
    ∧ (expertId < cfg.startExpertId ∨ cfg.endExpertId < expertId →
      weight_loader_physical cfg pd loaded wname shardId expertId =
        Except.ok pd) := by
  constructor
  · intro hin
    unfold weight_loader_physical
    rw [if_neg (by omega : ¬ (expertId < cfg.startExpertId ∨
      cfg.endExpertId < expertId))]
    rw [if_pos hbad]
  · intro hout
    unfold weight_loader_physical
    rw [if_pos hout]

theorem weight_loader_physical_shard_check_order_witness :
    weight_loader_physical fp8TestCfg (PData.vec (fun _ => 1))
      (fun _ _ => 2) WNameKind.plainWeight "w4" 5 =
      Except.error "shard_id must be w1 w2 or w3"
    ∧ weight_loader_physical fp8TestCfg (PData.vec (fun _ => 1))
      (fun _ _ => 2) WNameKind.plainWeight "w4" 9 =
      Except.ok (PData.vec (fun _ => 1)) :=
  ⟨(weight_loader_physical_shard_check_order fp8TestCfg
      (PData.vec (fun _ => 1)) (fun _ _ => 2) WNameKind.plainWeight "w4" 5
      (by decide)).1 (by decide),
   (weight_loader_physical_shard_check_order fp8TestCfg
      (PData.vec (fun _ => 1)) (fun _ _ => 2) WNameKind.plainWeight "w4" 9
      (by decide)).2 (Or.inr (by decide))⟩

/-- C4, counterexample: under the fp8 scheme with the stored input
scale still at its initial value 1, a gate-shard load of the value 2
disagrees with the stored value by far more than 1e-5, yet
`_load_fp8_scale` raises no error — refuting the claimed
"error iff disagreement beyond 1e-5". -/
theorem load_fp8_scale_tolerance_counterexample :
    ¬ (exceptOk (load_fp8_scale fp8TestCfg (PData.vec (fun _ => 1))
        (fun _ _ => 2) WNameKind.inputScaleName "w1" 0) = false ↔
       |(1 : ℚ) - 2| > inputScaleTol) := by
  have h1 : load_fp8_scale fp8TestCfg (PData.vec (fun _ => 1))
      (fun _ _ => 2) WNameKind.inputScaleName "w1" 0 =
      Except.ok (PData.vec (updVec (fun _ => 1) 0 2)) := by
    simp [load_fp8_scale, fp8TestCfg]
  intro h
  have habs : |(1 : ℚ) - 2| > inputScaleTol := by
    rw [show |(1 : ℚ) - 2| = 1 by norm_num]
    norm_num [inputScaleTol]
  have hfalse := h.mpr habs
  rw [h1] at hfalse
  exact absurd hfalse (by simp [exceptOk])

/-- C4 (amended): during fp8 input-scale loading for the gate (w1) or
up (w3) shard, a validation error is raised if and only if the value
already stored for that expert differs from the initial placeholder 1
and disagrees with the loaded value by more than the tolerance 1e-5;
on success the loaded value overwrites the stored one. -/
theorem load_fp8_scale_tolerance_iff (cfg : LoaderCfg)
    (hw : cfg.useW4afp8 = false) (f : ℕ → ℚ) (loaded : ℕ → ℕ → ℚ)
    (shardId : String) (e : ℕ) (hsh : shardId = "w1" ∨ shardId = "w3") :
    (exceptOk (load_fp8_scale cfg (PData.vec f) loaded
        WNameKind.inputScaleName shardId e) = false ↔
      (f e ≠ 1 ∧ |f e - loaded 0 0| > inputScaleTol))
    ∧ (¬ (f e ≠ 1 ∧ |f e - loaded 0 0| > inputScaleTol) →
      load_fp8_scale cfg (PData.vec f) loaded
        WNameKind.inputScaleName shardId e =
        Except.ok (PData.vec (updVec f e (loaded 0 0)))) := by
  unfold load_fp8_scale
  rw [hw]
  simp only [Bool.false_eq_true, if_false]
  by_cases hc : f e ≠ 1 ∧ |f e - loaded 0 0| > inputScaleTol
  · rw [if_pos ⟨hsh, hc.1, hc.2⟩]
    exact ⟨iff_of_true rfl hc, fun hn => absurd hc hn⟩
  · rw [if_neg (fun hfull => hc ⟨hfull.2.1, hfull.2.2⟩)]
    exact ⟨iff_of_false (by simp [exceptOk]) hc, fun _ => rfl⟩

theorem load_fp8_scale_tolerance_iff_witness :
    exceptOk (load_fp8_scale fp8TestCfg (PData.vec (fun _ => 3))
      (fun _ _ => 5) WNameKind.inputScaleName "w1" 0) = false :=
  (load_fp8_scale_tolerance_iff fp8TestCfg rfl (fun _ => 3) (fun _ _ => 5)
    "w1" 0 (Or.inl rfl)).1.mpr
    ⟨by norm_num, by
      rw [show |(3 : ℚ) - 5| = 2 by norm_num]
      norm_num [inputScaleTol]⟩

/-- A w4afp8 test configuration. -/
def w4aTestCfg : LoaderCfg :=
  { startExpertId := 0, endExpertId := 7, intermediateSize := 16,
    useW4afp8 := true, useBlockQuant := false, blockN := 128, blockK := 128 }

/-- C10: under the w4afp8 scheme, loading the gate (w1) and up (w3)
input scales stores them into slots 0 and 1 of the per-expert
parameter and returns before the gate/up consistency check: both loads
succeed unconditionally — in particular for arbitrarily disagreeing
values — the final slot 0 holds the w1 value, slot 1 the w3 value, and
every other entry is untouched. -/
theorem load_fp8_scale_w4afp8_slots (cfg : LoaderCfg)
    (hw : cfg.useW4afp8 = true) (f : ℕ → ℕ → ℚ) (l1 l3 : ℕ → ℕ → ℚ)
    (e : ℕ) :
    ∃ f1 f2,
      load_fp8_scale cfg (PData.slots f) l1
        WNameKind.inputScaleName "w1" e = Except.ok (PData.slots f1)
      ∧ load_fp8_scale cfg (PData.slots f1) l3
        WNameKind.inputScaleName "w3" e = Except.ok (PData.slots f2)
      ∧ f2 e 0 = l1 0 0 ∧ f2 e 1 = l3 0 0
      ∧ ∀ x y, ¬ (x = e ∧ (y = 0 ∨ y = 1)) → f2 x y = f x y := by
  refine ⟨updSlot f e 0 (l1 0 0),
    updSlot (updSlot f e 0 (l1 0 0)) e 1 (l3 0 0), ?_, ?_, ?_, ?_, ?_⟩
  · unfold load_fp8_scale
    rw [hw]
    simp
  · unfold load_fp8_scale
    rw [hw]
    simp
  · simp [updSlot]
  · simp [updSlot]
  · intro x y hxy
    simp only [updSlot]
    rw [if_neg (fun hc => hxy ⟨hc.1, Or.inr hc.2⟩),
      if_neg (fun hc => hxy ⟨hc.1, Or.inl hc.2⟩)]

theorem load_fp8_scale_w4afp8_slots_witness :
    ∃ f1 f2,
      load_fp8_scale w4aTestCfg (PData.slots (fun _ _ => 1))
        (fun _ _ => 2) WNameKind.inputScaleName "w1" 3 =
        Except.ok (PData.slots f1)
      ∧ load_fp8_scale w4aTestCfg (PData.slots f1)
        (fun _ _ => 9) WNameKind.inputScaleName "w3" 3 =
        Except.ok (PData.slots f2)
      ∧ f2 3 0 = 2 ∧ f2 3 1 = 9
      ∧ ∀ x y, ¬ (x = 3 ∧ (y = 0 ∨ y = 1)) → f2 x y = 1 :=
  load_fp8_scale_w4afp8_slots w4aTestCfg rfl (fun _ _ => 1)
    (fun _ _ => 2) (fun _ _ => 9) 3

/-! ## Dynamic activation scales (layer.py, lines 509-552) -/

/-- fp8 e4m3 maximum representable value, `torch.finfo(torch.float8_e4m3fn).max`. -/
def fp8E4m3Max : ℚ := 448

/-- Greatest element of a list, as `torch.max` over a nonempty tensor
(the source would raise on an empty one; we return 0 there). -/
def listMax : List ℚ → ℚ
  | [] => 0
  | [a] => a
  | a :: b :: r => max a (listMax (b :: r))

/-- Embedding of the per-token dynamic input scale
(layer.py, lines 510-512):
`torch.max(hidden_states, dim=1).values / torch.finfo(fp8_dtype).max`.
Note the source takes the plain row maximum, not the maximum absolute
value. -/
def w13_input_scale_per_token (hiddenStates : List (List ℚ)) : List ℚ :=
  hiddenStates.map (fun row => listMax row / fp8E4m3Max)

/-- Embedding of the per-tensor dynamic input scale
(layer.py, lines 514-519):
`torch.max(hidden_states).repeat(num_experts_per_partition) / max`.
`torch.max` without dim flattens, hence the maximum over the
concatenation of the rows. -/
def w13_input_scale_per_tensor (hiddenStates : List (List ℚ))
    (numPartition : ℕ) : List ℚ :=
  List.replicate numPartition (listMax hiddenStates.flatten / fp8E4m3Max)

/-- The scale the specification claims: maximum absolute value over the
token's hidden dimension divided by the maximum representable value.
Stated from the spec only for comparison against the source embedding. -/
def claimed_abs_scale_per_token (hiddenStates : List (List ℚ)) : List ℚ :=
  hiddenStates.map (fun row => listMax (row.map (fun v => |v|)) / fp8E4m3Max)

/-- Embedding of the scatter of per-token scales into permuted slot
order (layer.py, lines 542-552):
`scale[src2dst] = w13_input_scale.unsqueeze(1).expand(n, top_k).reshape(-1)`,
i.e. flat slot `m` (token `m / top_k`) writes its token's scale to
position `src2dst m`; `M` slots are written in order (the vectorised
scatter is well defined because `src2dst` is a permutation of the
slots). Unwritten positions keep the `torch.empty` placeholder 0. -/
def scatter_scale (tokScale : ℕ → ℚ) (src2dst : ℕ → ℕ) (topK : ℕ) :
    ℕ → ℕ → ℚ
  | 0, _ => 0
  | m + 1, j =>
    if j = src2dst m then tokScale (m / topK)
    else scatter_scale tokScale src2dst topK m j

/-- C3, counterexample: on the single activation row `[-2]` the code
computes the per-token scale `-2 / 448` (plain maximum), not the
claimed `max(|activation|) / 448 = 2 / 448`. -/
theorem input_scale_plain_max_counterexample :
    w13_input_scale_per_token [[-2]] ≠ claimed_abs_scale_per_token [[-2]] := by
  intro h
  simp only [w13_input_scale_per_token, claimed_abs_scale_per_token,
    List.map_cons, List.map_nil, listMax] at h
  rw [show |(-2 : ℚ)| = 2 by norm_num] at h
  have h2 : (-2 : ℚ) / fp8E4m3Max = 2 / fp8E4m3Max := (List.cons.inj h).1
  norm_num [fp8E4m3Max] at h2

/-- C3 (amended): the dynamic activation scale is the plain maximum
(not the maximum absolute value) divided by the fp8 maximum 448; per
token it reduces over the token's hidden dimension, per tensor over the
whole batch (replicated once per local expert); and the per-token
scales are scattered into permuted slot order so that, for an injective
slot permutation, each permuted slot carries the scale of the token
occupying it. -/
theorem dynamic_input_scale_spec :
    (∀ hiddenStates : List (List ℚ), ∀ (i : ℕ) (row : List ℚ),
      hiddenStates[i]? = some row →
      (w13_input_scale_per_token hiddenStates)[i]? =
        some (listMax row / fp8E4m3Max))
    ∧ (∀ hiddenStates : List (List ℚ), ∀ nPart i, i < nPart →
      (w13_input_scale_per_tensor hiddenStates nPart).getD i 0 =
        listMax hiddenStates.flatten / fp8E4m3Max)
    ∧ (∀ tokScale : ℕ → ℚ, ∀ src2dst : ℕ → ℕ, ∀ topK M : ℕ,
      (∀ i, i < M → ∀ j, j < M → src2dst i = src2dst j → i = j) →
      ∀ i, i < M →
        scatter_scale tokScale src2dst topK M (src2dst i) =
          tokScale (i / topK)) := by
  refine ⟨?_, ?_, ?_⟩
  · intro hs i row h
    unfold w13_input_scale_per_token
    rw [List.getElem?_map _ hs i, h]
    rfl
  · intro hs nPart i hi
    unfold w13_input_scale_per_tensor
    rw [List.getD_eq_getElem?_getD, List.getElem?_replicate, if_pos hi]
    rfl
  · intro tokScale sd topK M
    induction M with
    | zero => exact fun _ i hi => absurd hi (Nat.not_lt_zero i)
    | succ M ih =>
      intro hinj i hi
      by_cases hiM : i = M
      · subst hiM
        simp [scatter_scale]
      · have hi2 : i < M := by omega
        have hne : sd i ≠ sd M :=
          fun he => hiM (hinj i (by omega) M (by omega) he)
        simp only [scatter_scale]
        rw [if_neg hne]
        exact ih (fun a ha b hb hab =>
          hinj a (by omega) b (by omega) hab) i hi2

theorem dynamic_input_scale_spec_witness :
    scatter_scale (fun t => (t : ℚ) + 7) (fun i => 3 - i) 2 4 2 = 7 := by
  have h := dynamic_input_scale_spec.2.2 (fun t => (t : ℚ) + 7)
    (fun i => 3 - i) 2 4 (by decide) 1 (by decide)
  exact h.trans (by norm_num)

/-! ## Per-tensor to per-block scale broadcast
(layer.py, lines 307-341, `EPMoE.forward_deepgemm`) -/

/-- `sglang.srt.utils.ceil_div`, as written inline in the source:
`(x + block - 1) // block`. -/
def ceil_div (a b : ℕ) : ℕ := (a + b - 1) / b

/-- `w13_weight_scale_n` (lines 310-312): `2 * ceil(intermediate/128)`. -/
def w13ScaleRows (im : ℕ) : ℕ := 2 * ((im + 128 - 1) / 128)

/-- `w13_weight_scale_k` (lines 313-315): `ceil(hidden/128)`. -/
def w13ScaleCols (hid : ℕ) : ℕ := (hid + 128 - 1) / 128

/-- `w2_weight_scale_n` (lines 326-328): `ceil(hidden/128)`. -/
def w2ScaleRows (hid : ℕ) : ℕ := (hid + 128 - 1) / 128

/-- `w2_weight_scale_k` (lines 329-331): `ceil(intermediate/128)`. -/
def w2ScaleCols (im : ℕ) : ℕ := (im + 128 - 1) / 128

/-- `t.unsqueeze(1)` on a per-expert scalar tensor `[E] -> [E, 1]`. -/
def tUnsqueeze2 (t : ℕ → ℚ) : ℕ → ℕ → ℚ := fun e _ => t e

/-- `t.repeat_interleave(r, dim=1)` on `[E, m] -> [E, m * r]`:
output index `i` reads input index `i / r`. -/
def tRepeatInterleave2 (t : ℕ → ℕ → ℚ) (r : ℕ) : ℕ → ℕ → ℚ :=
  fun e i => t e (i / r)

/-- `t.unsqueeze(2)` on `[E, n] -> [E, n, 1]`. -/
def tUnsqueeze3 (t : ℕ → ℕ → ℚ) : ℕ → ℕ → ℕ → ℚ := fun e i _ => t e i

/-- `t.repeat_interleave(r, dim=2)` on `[E, n, m] -> [E, n, m * r]`. -/
def tRepeatInterleave3 (t : ℕ → ℕ → ℕ → ℚ) (r : ℕ) : ℕ → ℕ → ℕ → ℚ :=
  fun e i j => t e i (j / r)

/-- Embedding of the gate/up scale broadcast (lines 316-321):
`w13_weight_scale.unsqueeze(1).repeat_interleave(n, dim=1)
 .unsqueeze(2).repeat_interleave(k, dim=2)`. -/
def w13_weight_scale_repeated (scale : ℕ → ℚ) (im hid : ℕ) :
    ℕ → ℕ → ℕ → ℚ :=
  tRepeatInterleave3
    (tUnsqueeze3 (tRepeatInterleave2 (tUnsqueeze2 scale) (w13ScaleRows im)))
    (w13ScaleCols hid)

/-- Embedding of the down scale broadcast (lines 332-337). -/
def w2_weight_scale_repeated (scale : ℕ → ℚ) (im hid : ℕ) :
    ℕ → ℕ → ℕ → ℚ :=
  tRepeatInterleave3
    (tUnsqueeze3 (tRepeatInterleave2 (tUnsqueeze2 scale) (w2ScaleRows hid)))
    (w2ScaleCols im)

/-- C6: when the model is not block-quantized, `forward_deepgemm`
broadcasts each expert's per-tensor weight scale by pure repetition:
every entry of the gate/up block grid — of shape
`[2 * ceil(intermediate/128), ceil(hidden/128)]` — and of the down
block grid — of shape `[ceil(hidden/128), ceil(intermediate/128)]` —
equals that expert's original scalar scale. -/
theorem deepgemm_scale_broadcast_repeats (scale : ℕ → ℚ) (im hid : ℕ) :
    (∀ e i j, w13_weight_scale_repeated scale im hid e i j = scale e)
    ∧ (∀ e i j, w2_weight_scale_repeated scale im hid e i j = scale e)
    ∧ w13ScaleRows im = 2 * ceil_div im 128
    ∧ w13ScaleCols hid = ceil_div hid 128
    ∧ w2ScaleRows hid = ceil_div hid 128
    ∧ w2ScaleCols im = ceil_div im 128 :=
  ⟨fun _ _ _ => rfl, fun _ _ _ => rfl, rfl, rfl, rfl, rfl⟩

/-! ## The exchange-delivered contiguous path
(layer.py, lines 1111-1233, `DeepEPMoE.forward_deepgemm_contiguous`) -/

/-- Result of `forward_deepgemm_contiguous`: either the input fp8
activation buffer cast to bfloat16 and returned unchanged
(`hidden_states_fp8.bfloat16()`), or the result of the full
scatter / grouped-gemm / silu / grouped-gemm / gather pipeline, which
records the data it dispatches (the kernel bodies live in kernels.py
and the deep_gemm wrapper, outside the embedded file). -/
inductive ContigOut
  | passThroughCast (hs : ℕ → ℕ → ℚ)
  | computePath (hs : ℕ → ℕ → ℚ) (hsScale : ℕ → ℕ → ℚ) (counts : List ℤ)

/-- Embedding of the entry control flow of
`DeepEPMoE.forward_deepgemm_contiguous` (lines 1118-1125): if
`num_recv_tokens_per_expert` is `None`, or `sum(...) <= 0`, return the
input buffer cast to bfloat16; otherwise run the pipeline, which calls
the grouped matmul backend (`grouped_gemm_nt_f8f8bf16_contig`) exactly
twice.  The second component counts those backend invocations.  The
method assigns no layer attribute anywhere, so the embedding is a pure
function of its arguments. -/
def forward_deepgemm_contiguous (hsFp8 hsScale : ℕ → ℕ → ℚ)
    (recvCounts : Option (List ℤ)) : ContigOut × ℕ :=
  match recvCounts with
  | none => (ContigOut.passThroughCast hsFp8, 0)
  | some counts =>
    if counts.sum ≤ 0 then (ContigOut.passThroughCast hsFp8, 0)
    else (ContigOut.computePath hsFp8 hsScale counts, 2)

/-- C5: whenever `num_recv_tokens_per_expert` is null or the total
received token count is ≤ 0, `forward_deepgemm_contiguous` returns the
input activation buffer cast to bfloat16, invoking the grouped matmul
backend zero times (and, the method writing no layer attribute on any
path, leaving the layer state unchanged). -/
theorem forward_deepgemm_contiguous_degenerate (hsFp8 hsScale : ℕ → ℕ → ℚ)
    (recvCounts : Option (List ℤ))
    (h : recvCounts = none ∨
      ∃ counts, recvCounts = some counts ∧ counts.sum ≤ 0) :
    forward_deepgemm_contiguous hsFp8 hsScale recvCounts =
      (ContigOut.passThroughCast hsFp8, 0) := by
  rcases h with rfl | ⟨counts, rfl, hsum⟩
  · rfl
  · have hstep : forward_deepgemm_contiguous hsFp8 hsScale (some counts) =
        if counts.sum ≤ 0 then (ContigOut.passThroughCast hsFp8, 0)
        else (ContigOut.computePath hsFp8 hsScale counts, 2) := rfl
    rw [hstep, if_pos hsum]

theorem forward_deepgemm_contiguous_degenerate_witness :
    forward_deepgemm_contiguous (fun _ _ => 1) (fun _ _ => 1)
      (some [3, -5]) = (ContigOut.passThroughCast (fun _ _ => 1), 0) :=
  forward_deepgemm_contiguous_degenerate (fun _ _ => 1) (fun _ _ => 1)
    (some [3, -5]) (Or.inr ⟨[3, -5], rfl, by decide⟩)

/-! ## The inverse gather (post-reorder) -/

/-- Modelled from the spec: the bodies of `post_reorder_triton_kernel`
(invoked at layer.py lines 669-681) and `ep_gather` (line 1231) live in
sglang/srt/layers/moe/ep_moe/kernels.py, which is not among the
embedded sources.  Per the spec, the inverse gather computes each
output element of token `t` as the sum, over the token's `top_k` slots
whose expert id lies in the locally owned range
`[start_expert_id, end_expert_id]`, of the slot's routing weight times
the expert output at the slot's permuted position. -/
def post_reorder_output (downOutput : ℕ → ℕ → ℚ) (src2dst : ℕ → ℕ)
    (topkIds : ℕ → ℤ) (topkWeights : ℕ → ℚ) (startId endId : ℤ)
    (topK : ℕ) (t d : ℕ) : ℚ :=
  ∑ k in Finset.range topK,
    if startId ≤ topkIds (t * topK + k) ∧ topkIds (t * topK + k) ≤ endId
    then topkWeights (t * topK + k) *
      downOutput (src2dst (t * topK + k)) d
    else 0

/-- C1: the output row of a token is the accumulated weighted sum over
its in-range top-k slots; in particular, when exactly the two distinct
slots `k1` and `k2` carry locally owned experts, the final value is
`w(k1) * out(k1) + w(k2) * out(k2)` — the weighted sum of both
contributions, not a last-write-wins overwrite. -/
theorem post_reorder_accumulates (downOutput : ℕ → ℕ → ℚ)
    (src2dst : ℕ → ℕ) (topkIds : ℕ → ℤ) (topkWeights : ℕ → ℚ)
    (startId endId : ℤ) (topK t d k1 k2 : ℕ)
    (hk1 : k1 < topK) (hk2 : k2 < topK) (hne : k1 ≠ k2)
    (hin1 : startId ≤ topkIds (t * topK + k1) ∧
      topkIds (t * topK + k1) ≤ endId)
    (hin2 : startId ≤ topkIds (t * topK + k2) ∧
      topkIds (t * topK + k2) ≤ endId)
    (hout : ∀ k, k < topK → k ≠ k1 → k ≠ k2 →
      ¬ (startId ≤ topkIds (t * topK + k) ∧
        topkIds (t * topK + k) ≤ endId)) :
    post_reorder_output downOutput src2dst topkIds topkWeights
        startId endId topK t d =
      topkWeights (t * topK + k1) * downOutput (src2dst (t * topK + k1)) d
      + topkWeights (t * topK + k2) *
          downOutput (src2dst (t * topK + k2)) d := by
  unfold post_reorder_output
  have hsub : ({k1, k2} : Finset ℕ) ⊆ Finset.range topK := by
    intro x hx
    rcases Finset.mem_insert.mp hx with rfl | hx2
    · exact Finset.mem_range.mpr hk1
    · rw [Finset.mem_singleton] at hx2
      subst hx2
      exact Finset.mem_range.mpr hk2
  have hzero : ∀ x ∈ Finset.range topK, x ∉ ({k1, k2} : Finset ℕ) →
      (if startId ≤ topkIds (t * topK + x) ∧ topkIds (t * topK + x) ≤ endId
       then topkWeights (t * topK + x) *
         downOutput (src2dst (t * topK + x)) d
       else 0) = 0 := by
    intro x hx hnx
    rw [Finset.mem_insert, Finset.mem_singleton] at hnx
    push_neg at hnx
    exact if_neg (hout x (Finset.mem_range.mp hx) hnx.1 hnx.2)
  rw [← Finset.sum_subset hsub hzero, Finset.sum_pair hne,
     if_pos hin1, if_pos hin2]

theorem post_reorder_accumulates_witness :
    post_reorder_output (fun s _ => (s : ℚ) + 1) (fun s => s)
      (fun s => if s = 0 then 2 else 5)
      (fun s => if s = 0 then (3 : ℚ) / 5 else 2 / 5)
      0 7 2 0 0 = 7 / 5 := by
  have h := post_reorder_accumulates (fun s _ => (s : ℚ) + 1) (fun s => s)
    (fun s => if s = 0 then 2 else 5)
    (fun s => if s = 0 then (3 : ℚ) / 5 else 2 / 5)
    0 7 2 0 0 0 1 (by decide) (by decide) (by decide)
    (by decide) (by decide) (by decide)
  exact h.trans (by norm_num)

end EPMoE
